import Mathlib

/-!
Verification development for the Hypo toy ISA: an assembler (`asm` package)
and a virtual machine (`cpu` package).  The Go source is shallowly embedded:
pure functions become Lean functions, the mutable `Cpu` struct becomes a
record threaded explicitly, Go `uint32` arithmetic becomes `Nat` arithmetic
with explicit `% 2^32`, fallible operations return `Except`/`Option`, and a
Go runtime panic (out-of-range index or slice) is a distinguished `Res.panic`
outcome.
-/

/-- `2^32`, the modulus of Go `uint32` arithmetic. -/
def U32 : Nat := 4294967296

/-- One lowercase hex digit, as in Go `%x` formatting. -/
def hexDigit : Nat → String
  | 0 => "0" | 1 => "1" | 2 => "2" | 3 => "3"
  | 4 => "4" | 5 => "5" | 6 => "6" | 7 => "7"
  | 8 => "8" | 9 => "9" | 10 => "a" | 11 => "b"
  | 12 => "c" | 13 => "d" | 14 => "e" | _ => "f"

/-- Go `fmt` `%02x` of a byte value. -/
def hex2 (n : Nat) : String :=
  hexDigit (n / 16 % 16) ++ hexDigit (n % 16)

/-- Go `fmt` `%08x` of a `uint32` value. -/
def hex8 (n : Nat) : String :=
  hexDigit (n / 16 ^ 7 % 16) ++ hexDigit (n / 16 ^ 6 % 16) ++
  hexDigit (n / 16 ^ 5 % 16) ++ hexDigit (n / 16 ^ 4 % 16) ++
  hexDigit (n / 16 ^ 3 % 16) ++ hexDigit (n / 16 ^ 2 % 16) ++
  hexDigit (n / 16 % 16) ++ hexDigit (n % 16)

/-- The four little-endian bytes of a 32-bit value, as produced by
`binary.Write(:, binary.LittleEndian, addr)` and by the byte-shift patching
in `Writer.Write`. -/
def le32bytes (v : Nat) : List Nat :=
  [v % 256, v / 256 % 256, v / 65536 % 256, v / 16777216 % 256]

/-- Assemble a 32-bit value from four little-endian bytes, as in
`uint32(i[3])<<24 | uint32(i[2])<<16 | uint32(i[1])<<8 | uint32(i[0])`. -/
def le32 (b0 b1 b2 b3 : Nat) : Nat :=
  b3 * 16777216 + b2 * 65536 + b1 * 256 + b0

/-- Outcome of running a piece of Go code that may panic at runtime
(out-of-range array index or slice expression). -/
inductive Res (α : Type) where
  | ok (a : α) : Res α
  | panic : Res α
deriving DecidableEq

deriving instance DecidableEq for Except

/-- Whether a result is a runtime panic. -/
def Res.isPanic {α : Type} : Res α → Bool
  | .ok _ => false
  | .panic => true

namespace cpu

/-- The opcode constants of `asm` (`OpNop = iota`, ...). -/
def OpNop : Nat := 0
def OpLd : Nat := 1
def OpLr : Nat := 2
def OpSt : Nat := 3
def OpAdd : Nat := 4
def OpSub : Nat := 5
def OpAddi : Nat := 6
def OpSubi : Nat := 7
def OpP : Nat := 8
def OpBeq : Nat := 9
def OpBne : Nat := 10
def OpBgt : Nat := 11
def OpBlt : Nat := 12
def OpJ : Nat := 13
def OpJr : Nat := 14
def OpCall : Nat := 15
def OpExit : Nat := 16

/-- Length of the object-file magic header `asm.Hdr`. -/
def hdrLen : Nat := 4

/-- `len(c.reg)`: the register file has 8 registers. -/
def regLen : Nat := 8

/-- `len(c.mem)`: the memory has 8192 bytes. -/
def memLen : Nat := 8192

/-- The Go `Cpu` struct.  `reg` and `mem` are total maps; the fixed array
lengths 8 and 8192 appear as the explicit bounds checked at every indexing
site, exactly where Go checks them at runtime.  `pos` is the position of the
seekable `bytes.Reader` cursor `buf`; `buf` itself holds the object bytes. -/
structure Cpu where
  reg : Nat → Nat
  mem : Nat → Nat
  pc : Nat
  flags : Nat
  err : Option String
  pos : Nat
  buf : List Nat

/-- `binary.Read(c.buf, ...)` of `n` bytes: on success the cursor advances by
`n` and the bytes are returned; a short read consumes the rest of the buffer
and latches `c.err = "bad read"` (the returned list is then unused by every
caller, which checks `c.err` first). -/
def readB (c : Cpu) (n : Nat) : Cpu × List Nat :=
  if c.pos + n ≤ c.buf.length then
    ({ c with pos := c.pos + n }, (c.buf.drop c.pos).take n)
  else
    ({ c with pos := c.buf.length, err := some "bad read" }, [])

/-- `Cpu.checkReg`: faults only when `r > len(c.reg)`, i.e. `r > 8` — the
source's off-by-one — and then latches `err` and bit 0 of `flags`.  The Go
function returns `c.err`; callers re-read it from the updated state. -/
def checkReg (c : Cpu) (r : Nat) : Cpu :=
  if r > regLen then
    { c with err := some ("invalid register " ++ hex2 r), flags := c.flags ||| 1 }
  else c

/-- `Cpu.readReg`: after `checkReg`, an unset `err` leads to the index
`c.reg[r]`, which panics when `r ≥ 8`; with `err` set the read yields 0. -/
def readReg (c : Cpu) (r : Nat) : Res (Cpu × Nat) :=
  let c1 := checkReg c r
  match c1.err with
  | none => if r < regLen then .ok (c1, c1.reg r) else .panic
  | some _ => .ok (c1, 0)

/-- `Cpu.writeReg`: after `checkReg`, an unset `err` leads to the store
`c.reg[r] = i` (panic when `r ≥ 8`); with `err` set the write is dropped. -/
def writeReg (c : Cpu) (r i : Nat) : Res Cpu :=
  let c1 := checkReg c r
  match c1.err with
  | none =>
    if r < regLen then
      .ok { c1 with reg := fun j => if j = r then i else c1.reg j }
    else .panic
  | some _ => .ok c1

/-- `Cpu.readImm`: the guard is `addr > len(c.mem)`, i.e. `addr > 8192`.
Past the guard the source evaluates the slice `c.mem[addr:4]` (low bound
`addr`, high bound 4!), which requires `addr ≤ 4`, and then indexes element 3
of that slice, which requires `3 < 4 - addr`; so only `addr = 0` avoids a
panic. -/
def readImm (c : Cpu) (addr : Nat) : Res (Except String Nat) :=
  if addr > memLen then
    .ok (.error ("illegal read " ++ hex8 addr))
  else if addr ≤ 4 then
    if 3 < 4 - addr then
      .ok (.ok (le32 (c.mem addr) (c.mem (addr + 1)) (c.mem (addr + 2)) (c.mem (addr + 3))))
    else .panic
  else .panic

/-- `Cpu.writeImm`: the guard is `addr > len(c.mem)`, i.e. `addr > 8192`.
Past the guard the four byte stores `c.mem[addr] .. c.mem[addr+3]` each
require their index `< 8192`, so `addr ≥ 8189` panics. -/
def writeImm (c : Cpu) (addr imm : Nat) : Res (Cpu × Option String) :=
  if addr > memLen then
    .ok (c, some ("illegal write " ++ hex8 imm ++ " (at " ++ hex8 addr ++ ")"))
  else if addr + 3 < memLen then
    .ok ({ c with mem := fun j =>
            if j = addr then imm % 256
            else if j = addr + 1 then imm / 256 % 256
            else if j = addr + 2 then imm / 65536 % 256
            else if j = addr + 3 then imm / 16777216 % 256
            else c.mem j }, none)
  else .panic

/-- `Cpu.jump`: seeks the cursor to `pc + len(asm.Hdr)` (computed in
`uint32`) and sets `c.pc ← pc`.  Seeking a `bytes.Reader` to a non-negative
offset never fails, so the Go error return is always nil. -/
def jump (c : Cpu) (t : Nat) : Cpu :=
  { c with pos := (t + hdrLen) % U32, pc := t }

end cpu

namespace cpu

/-- The dispatch table `ops`: one handler per opcode, each returning the
number of operand bytes consumed (0 for control transfers, which resync `pc`
through `jump`).  Each arm is a direct translation of the corresponding Go
closure, including the `if c.read(&ins); c.err != nil { return 0 }` guard.
The final catch-all arm is unreachable: `step` dispatches here only for
opcodes that are keys of the Go map, i.e. values `≤ 16`. -/
def exec : Nat → Cpu → Res (Cpu × Nat)
  | 0, c => .ok (c, 0)
  | 1, c =>
    -- OpLd: `i, err := c.readImm(c.readReg(ins.R2)); c.err = err;
    -- if err != nil { c.writeReg(ins.R1, i) }` — the write is guarded by the
    -- *inverted* condition, and `c.err` is already `err` when it runs.
    let p := readB c 2
    match p.1.err with
    | some _ => .ok (p.1, 0)
    | none =>
      let r1 := p.2.getD 0 0
      let r2 := p.2.getD 1 0
      match readReg p.1 r2 with
      | .panic => .panic
      | .ok (c2, a) =>
        match readImm c2 a with
        | .panic => .panic
        | .ok (.ok _) => .ok ({ c2 with err := none }, 2)
        | .ok (.error e) =>
          match writeReg { c2 with err := some e } r1 0 with
          | .panic => .panic
          | .ok c3 => .ok (c3, 2)
  | 2, c =>
    -- OpLr
    let p := readB c 5
    match p.1.err with
    | some _ => .ok (p.1, 0)
    | none =>
      let i := le32 (p.2.getD 0 0) (p.2.getD 1 0) (p.2.getD 2 0) (p.2.getD 3 0)
      match writeReg p.1 (p.2.getD 4 0) i with
      | .panic => .panic
      | .ok c2 => .ok (c2, 5)
  | 3, c =>
    -- OpSt: `c.err = c.writeImm(c.readReg(ins.R1), c.readReg(ins.R2))`
    let p := readB c 2
    match p.1.err with
    | some _ => .ok (p.1, 0)
    | none =>
      match readReg p.1 (p.2.getD 0 0) with
      | .panic => .panic
      | .ok (c2, a) =>
        match readReg c2 (p.2.getD 1 0) with
        | .panic => .panic
        | .ok (c3, v) =>
          match writeImm c3 a v with
          | .panic => .panic
          | .ok (c4, e) => .ok ({ c4 with err := e }, 2)
  | 4, c =>
    -- OpAdd (uint32 wrap-around addition)
    let p := readB c 3
    match p.1.err with
    | some _ => .ok (p.1, 0)
    | none =>
      match readReg p.1 (p.2.getD 0 0) with
      | .panic => .panic
      | .ok (c2, v1) =>
        match readReg c2 (p.2.getD 1 0) with
        | .panic => .panic
        | .ok (c3, v2) =>
          match writeReg c3 (p.2.getD 2 0) ((v1 + v2) % U32) with
          | .panic => .panic
          | .ok c4 => .ok (c4, 3)
  | 5, c =>
    -- OpSub (uint32 wrap-around subtraction)
    let p := readB c 3
    match p.1.err with
    | some _ => .ok (p.1, 0)
    | none =>
      match readReg p.1 (p.2.getD 0 0) with
      | .panic => .panic
      | .ok (c2, v1) =>
        match readReg c2 (p.2.getD 1 0) with
        | .panic => .panic
        | .ok (c3, v2) =>
          match writeReg c3 (p.2.getD 2 0) ((v1 + U32 - v2 % U32) % U32) with
          | .panic => .panic
          | .ok c4 => .ok (c4, 3)
  | 6, c =>
    -- OpAddi
    let p := readB c 6
    match p.1.err with
    | some _ => .ok (p.1, 0)
    | none =>
      let i := le32 (p.2.getD 1 0) (p.2.getD 2 0) (p.2.getD 3 0) (p.2.getD 4 0)
      match readReg p.1 (p.2.getD 0 0) with
      | .panic => .panic
      | .ok (c2, v1) =>
        match writeReg c2 (p.2.getD 5 0) ((v1 + i) % U32) with
        | .panic => .panic
        | .ok c3 => .ok (c3, 6)
  | 7, c =>
    -- OpSubi
    let p := readB c 6
    match p.1.err with
    | some _ => .ok (p.1, 0)
    | none =>
      let i := le32 (p.2.getD 1 0) (p.2.getD 2 0) (p.2.getD 3 0) (p.2.getD 4 0)
      match readReg p.1 (p.2.getD 0 0) with
      | .panic => .panic
      | .ok (c2, v1) =>
        match writeReg c2 (p.2.getD 5 0) ((v1 + U32 - i % U32) % U32) with
        | .panic => .panic
        | .ok c3 => .ok (c3, 6)
  | 8, c =>
    -- OpP: `fmt.Print(string(rune(c.reg[R])))` — a *direct* index into the
    -- register file with no checkReg; the printed codepoint is an external
    -- side effect and is not modelled.
    let p := readB c 1
    match p.1.err with
    | some _ => .ok (p.1, 0)
    | none => if p.2.getD 0 0 < regLen then .ok (p.1, 1) else .panic
  | 9, c =>
    -- OpBeq
    let p := readB c 6
    match p.1.err with
    | some _ => .ok (p.1, 0)
    | none =>
      let i := le32 (p.2.getD 2 0) (p.2.getD 3 0) (p.2.getD 4 0) (p.2.getD 5 0)
      match readReg p.1 (p.2.getD 0 0) with
      | .panic => .panic
      | .ok (c2, v1) =>
        match readReg c2 (p.2.getD 1 0) with
        | .panic => .panic
        | .ok (c3, v2) =>
          if v1 = v2 then .ok (jump c3 i, 0) else .ok (c3, 6)
  | 10, c =>
    -- OpBne
    let p := readB c 6
    match p.1.err with
    | some _ => .ok (p.1, 0)
    | none =>
      let i := le32 (p.2.getD 2 0) (p.2.getD 3 0) (p.2.getD 4 0) (p.2.getD 5 0)
      match readReg p.1 (p.2.getD 0 0) with
      | .panic => .panic
      | .ok (c2, v1) =>
        match readReg c2 (p.2.getD 1 0) with
        | .panic => .panic
        | .ok (c3, v2) =>
          if v1 ≠ v2 then .ok (jump c3 i, 0) else .ok (c3, 6)
  | 11, c =>
    -- OpBgt (unsigned comparison)
    let p := readB c 6
    match p.1.err with
    | some _ => .ok (p.1, 0)
    | none =>
      let i := le32 (p.2.getD 2 0) (p.2.getD 3 0) (p.2.getD 4 0) (p.2.getD 5 0)
      match readReg p.1 (p.2.getD 0 0) with
      | .panic => .panic
      | .ok (c2, v1) =>
        match readReg c2 (p.2.getD 1 0) with
        | .panic => .panic
        | .ok (c3, v2) =>
          if v1 > v2 then .ok (jump c3 i, 0) else .ok (c3, 6)
  | 12, c =>
    -- OpBlt (unsigned comparison)
    let p := readB c 6
    match p.1.err with
    | some _ => .ok (p.1, 0)
    | none =>
      let i := le32 (p.2.getD 2 0) (p.2.getD 3 0) (p.2.getD 4 0) (p.2.getD 5 0)
      match readReg p.1 (p.2.getD 0 0) with
      | .panic => .panic
      | .ok (c2, v1) =>
        match readReg c2 (p.2.getD 1 0) with
        | .panic => .panic
        | .ok (c3, v2) =>
          if v1 < v2 then .ok (jump c3 i, 0) else .ok (c3, 6)
  | 13, c =>
    -- OpJ
    let p := readB c 4
    match p.1.err with
    | some _ => .ok (p.1, 0)
    | none =>
      .ok (jump p.1 (le32 (p.2.getD 0 0) (p.2.getD 1 0) (p.2.getD 2 0) (p.2.getD 3 0)), 0)
  | 14, c =>
    -- OpJr
    let p := readB c 1
    match p.1.err with
    | some _ => .ok (p.1, 0)
    | none =>
      match readReg p.1 (p.2.getD 0 0) with
      | .panic => .panic
      | .ok (c2, v) => .ok (jump c2 v, 0)
  | 15, c =>
    -- OpCall: `c.writeReg(3, c.pc+4); c.jump(I)`
    let p := readB c 4
    match p.1.err with
    | some _ => .ok (p.1, 0)
    | none =>
      let i := le32 (p.2.getD 0 0) (p.2.getD 1 0) (p.2.getD 2 0) (p.2.getD 3 0)
      match writeReg p.1 3 ((p.1.pc + 4) % U32) with
      | .panic => .panic
      | .ok c2 => .ok (jump c2 i, 0)
  | 16, c => .ok ({ c with flags := c.flags ||| 1 }, 0)
  | _, c => .ok (c, 0)

/-- `uint32` decrement with wrap-around, for `c.pc--`. -/
def wrapDec (n : Nat) : Nat := (n + (U32 - 1)) % U32

/-- `Cpu.Step`: read one opcode byte (returning the latched error if any),
increment `pc`, dispatch (rolling `pc` back on an unknown opcode), add the
handler's operand byte count to `pc`, and surface `c.err`. -/
def step (c : Cpu) : Res (Cpu × Option String) :=
  let p := readB c 1
  match p.1.err with
  | some e => .ok (p.1, some e)
  | none =>
    let op := p.2.getD 0 0
    let c2 : Cpu := { p.1 with pc := (p.1.pc + 1) % U32 }
    if op > 16 then
      .ok ({ c2 with pc := wrapDec c2.pc }, some ("invalid opcode: " ++ hex2 op))
    else
      match exec op c2 with
      | .panic => .panic
      | .ok (c3, n) => .ok ({ c3 with pc := (c3.pc + n) % U32 }, c3.err)

/-- The executed `Cpu` after one step (identity on panic); used to state
closed corollaries about concrete machines. -/
def stepCpu (c : Cpu) : Cpu :=
  match step c with
  | .ok (c', _) => c'
  | .panic => c

/-- The step's returned Go error: `some e` when the step returned normally
with result `e`, `none` when it panicked. -/
def stepErr (c : Cpu) : Option (Option String) :=
  match step c with
  | .ok (_, e) => some e
  | .panic => none

end cpu

namespace asm

/-- Symbol kinds.  The Go source uses `iota` integers `Id = 0, Label, Reg,
Addr, Eof` plus the sentinel `-1` for a not-yet-assigned symbol; the
constructors are listed in that order, with `unassigned` standing for `-1`
(the zero value `Symbol{}` has type `Id`). -/
inductive SymTy where
  | unassigned
  | id
  | label
  | reg
  | addr
  | eof
deriving DecidableEq, Repr

/-- The Go `Symbol` struct: kind, textual value, source line. -/
structure Symbol where
  type : SymTy
  val : String
  line : Nat
deriving DecidableEq, Repr

/-- The zero value `Symbol{}` returned by `Reader.Read` on exhaustion:
`Type` 0 is `Id`. -/
def zeroSym : Symbol := { type := .id, val := "", line := 0 }

/-- `unicode.IsSpace(rune(c))` for a byte `c` (Latin-1 range): HT, LF, VT,
FF, CR, space, NEL (U+0085), NBSP (U+00A0). -/
def isSpace (c : Nat) : Bool :=
  c == 32 || (decide (9 ≤ c) && decide (c ≤ 13)) || c == 133 || c == 160

/-- `unicode.IsGraphic(rune(c))` for a byte `c`: printable ASCII plus the
Latin-1 graphic range (all of `0xa0..0xff` except the soft hyphen U+00AD). -/
def isGraphic (c : Nat) : Bool :=
  (decide (32 ≤ c) && decide (c ≤ 126)) ||
  (decide (160 ≤ c) && decide (c ≤ 255) && c != 173)

/-- `unicode.IsLetter(rune(c))` for a byte `c`: ASCII letters plus the
Latin-1 letters (ª µ º and the accented ranges, excluding × and ÷). -/
def isLetter (c : Nat) : Bool :=
  (decide (65 ≤ c) && decide (c ≤ 90)) || (decide (97 ≤ c) && decide (c ≤ 122)) ||
  c == 170 || c == 181 || c == 186 ||
  (decide (192 ≤ c) && decide (c ≤ 214)) ||
  (decide (216 ≤ c) && decide (c ≤ 246)) ||
  (decide (248 ≤ c) && decide (c ≤ 255))

/-- Go `string(bytes)` for our byte lists (one char per byte). -/
def strOf (bs : List Nat) : String := String.mk (bs.map Char.ofNat)

/-- `ReadToken`: accumulate bytes until a whitespace byte (consumed,
newlines bumping the line counter) — or fail (`none`) when end of input is
reached first, mirroring the `ReadByte` error path.  Returns the token, the
rest of the stream and the updated line counter. -/
def ReadToken : List Nat → Nat → Option (List Nat × List Nat × Nat)
  | [], _ => none
  | c :: rest, lc =>
    let lc1 := if c == 10 then lc + 1 else lc
    if isSpace c then some ([], rest, lc1)
    else
      match ReadToken rest lc1 with
      | none => none
      | some (tok, r, l) => some (c :: tok, r, l)

/-- `r.ReadBytes('\n')`: consume bytes up to and including the next newline
(or all of them). -/
def dropLine : List Nat → List Nat
  | [] => []
  | c :: rest => if c == 10 then rest else dropLine rest

/-- The lexer's `Read`: returns the symbol, the Go error value, the rest of
the stream and the updated module-scoped line counter `lc`.  A `#` starts a
comment and yields the still-unassigned symbol; a non-graphic byte is a
lexical error; `%`/`$` start register/address tokens (sigil excluded); a
letter starts an identifier, reclassified as a label when it ends in `:`;
reaching end of input inside a token turns the symbol into `Eof`, discarding
the token (the partially-updated Go `sym` still has `Val` and `Line` zero).
Any other graphic byte is silently skipped by the loop. -/
def ReadSym : List Nat → Nat → Symbol × Option String × List Nat × Nat
  | [], lc => ({ type := .eof, val := "", line := 0 }, none, [], lc)
  | c :: rest, lc =>
    if c == 35 then
      ({ type := .unassigned, val := "", line := 0 }, none, dropLine rest, lc + 1)
    else
      let lc1 := if c == 10 then lc + 1 else lc
      if isSpace c then ReadSym rest lc1
      else if !(isGraphic c) then
        ({ type := .unassigned, val := "", line := 0 },
         some ("invalid character '" ++ hex2 c ++ "'"), rest, lc1)
      else if c == 37 || c == 36 then
        match ReadToken rest lc1 with
        | none => ({ type := .eof, val := "", line := 0 }, none, [], lc1)
        | some (tok, r, l) =>
          ({ type := if c == 37 then .reg else .addr, val := strOf tok, line := l }, none, r, l)
      else if isLetter c then
        -- the Go guard `sym.Type == -1` always holds here: every assignment
        -- to `sym.Type` is immediately followed by `break` or `return`
        match ReadToken (c :: rest) lc1 with
        | none => ({ type := .eof, val := "", line := 0 }, none, [], lc1)
        | some (tok, r, l) =>
          if tok.getLastD 0 == 58 then
            ({ type := .label, val := strOf tok.dropLast, line := l }, none, r, l + 1)
          else
            ({ type := .id, val := strOf tok, line := l }, none, r, l)
      else ReadSym rest lc1

/-- `Reader.Read`: pop the next symbol or fail with `bad argument count`
(returning the zero `Symbol{}`). -/
def readerRead : List Symbol → Symbol × Option String × List Symbol
  | [] => (zeroSym, some "bad argument count", [])
  | s :: rest => (s, none, rest)

/-- `Reader.Expect`: an `Id` expectation also accepts a `Label`; any other
expectation also accepts an `Id` (the label-reference quirk). -/
def expect (t : SymTy) (syms : List Symbol) : Symbol × Option String × List Symbol :=
  let r := readerRead syms
  match r.2.1 with
  | some m => (r.1, some m, r.2.2)
  | none =>
    match t with
    | .id =>
      if r.1.type ≠ .id ∧ r.1.type ≠ .label then
        (r.1, some ("expected identifier got '" ++ r.1.val ++ "'"), r.2.2)
      else (r.1, none, r.2.2)
    | _ =>
      if r.1.type ≠ t ∧ r.1.type ≠ .id then
        let tval := if t = .addr then "immediate" else "register"
        (r.1, some ("expected " ++ tval ++ " got '" ++ r.1.val ++ "'"), r.2.2)
      else (r.1, none, r.2.2)

/-- An instruction descriptor: opcode byte and operand kinds. -/
structure Instruction where
  op : Nat
  params : List SymTy
deriving DecidableEq, Repr

/-- The mnemonic table `inst`. -/
def inst : String → Option Instruction
  | "nop" => some ⟨0, []⟩
  | "ld" => some ⟨1, [.reg, .reg]⟩
  | "lr" => some ⟨2, [.addr, .reg]⟩
  | "st" => some ⟨3, [.reg, .reg]⟩
  | "add" => some ⟨4, [.reg, .reg, .reg]⟩
  | "sub" => some ⟨5, [.reg, .reg, .reg]⟩
  | "addi" => some ⟨6, [.reg, .addr, .reg]⟩
  | "subi" => some ⟨7, [.reg, .addr, .reg]⟩
  | "p" => some ⟨8, [.reg]⟩
  | "beq" => some ⟨9, [.reg, .reg, .addr]⟩
  | "bne" => some ⟨10, [.reg, .reg, .addr]⟩
  | "bgt" => some ⟨11, [.reg, .reg, .addr]⟩
  | "blt" => some ⟨12, [.reg, .reg, .addr]⟩
  | "j" => some ⟨13, [.addr]⟩
  | "jr" => some ⟨14, [.reg]⟩
  | "call" => some ⟨15, [.addr]⟩
  | "exit" => some ⟨16, []⟩
  | _ => none

/-- Fold a digit string into a number; `none` on any invalid digit. -/
def foldDigits (base : Nat) (dig : Char → Option Nat) : List Char → Nat → Option Nat
  | [], acc => some acc
  | d :: ds, acc =>
    match dig d with
    | none => none
    | some v => foldDigits base dig ds (acc * base + v)

/-- Decimal digit value. -/
def digDec (ch : Char) : Option Nat :=
  if 48 ≤ ch.toNat ∧ ch.toNat ≤ 57 then some (ch.toNat - 48) else none

/-- Hexadecimal digit value (`0-9a-fA-F`), as accepted by `strconv` base 16. -/
def digHex (ch : Char) : Option Nat :=
  if 48 ≤ ch.toNat ∧ ch.toNat ≤ 57 then some (ch.toNat - 48)
  else if 97 ≤ ch.toNat ∧ ch.toNat ≤ 102 then some (ch.toNat - 87)
  else if 65 ≤ ch.toNat ∧ ch.toNat ≤ 70 then some (ch.toNat - 55)
  else none

/-- Go `strconv.ParseInt(s, base, bitSize)` reduced to what its callers
observe: `none` on any syntax or range error, otherwise the parsed value.
An optional sign precedes the digits; the magnitude must stay below
`2^(bits-1)` for positive results and at most `2^(bits-1)` for negative
ones. -/
def parseIntGo (base bits : Nat) (dig : Char → Option Nat) (s : String) : Option Int :=
  match s.data with
  | [] => none
  | c0 :: cs0 =>
    let neg := c0 = '-'
    let ds := if c0 = '-' ∨ c0 = '+' then cs0 else c0 :: cs0
    if ds.isEmpty then none
    else
      match foldDigits base dig ds 0 with
      | none => none
      | some un =>
        if neg then
          if un > 2 ^ (bits - 1) then none else some (-(un : Int))
        else
          if un ≥ 2 ^ (bits - 1) then none else some (un : Int)

/-- `strconv.Atoi` = `ParseInt(s, 10, 0)` with the 64-bit `int`. -/
def parseAtoi (s : String) : Option Int := parseIntGo 10 64 digDec s

/-- `strconv.ParseInt(s, 16, 32)` as used for address literals: *signed*
32-bit range. -/
def parseHex32 (s : String) : Option Int := parseIntGo 16 32 digHex s

/-- Go `byte(r)` of an `int`: the low 8 bits. -/
def byteOfInt (r : Int) : Nat := (r % 256).toNat

/-- Go `uint32(addr)` of an `int64` in the `int32` range. -/
def u32OfInt (i : Int) : Nat := (i % (4294967296 : Int)).toNat

/-- The assembler back-end state: emitted buffer, program counter, label
definitions (`lab`) and recorded address patches (`addr`), the two Go maps
as association lists in insertion order. -/
structure Writer where
  buf : List Nat
  pc : Nat
  lab : List (String × Nat)
  addr : List (Nat × String)
deriving DecidableEq, Repr

/-- `NewWriter`: empty buffer, `pc = 0`, empty maps. -/
def writer0 : Writer := ⟨[], 0, [], []⟩

/-- Assoc-list lookup for the `lab` map (keys are unique). -/
def lookupStr : List (String × Nat) → String → Option Nat
  | [], _ => none
  | (k, v) :: rest, n => if k = n then some v else lookupStr rest n

/-- `Writer.WriteAddr`: append the 4 little-endian bytes and advance `pc`. -/
def WriteAddr (w : Writer) (a : Nat) : Writer :=
  { w with buf := w.buf ++ le32bytes a, pc := (w.pc + 4) % U32 }

/-- `Writer.WriteSymbol`: emit an opcode byte for a known mnemonic; record a
patch and 4 zero bytes for any other identifier; define a label (rejecting
redefinition); emit one byte for a register literal (`strconv.Atoi`); emit 4
little-endian bytes for an address literal (`strconv.ParseInt(v, 16, 32)`).
`Eof`/unassigned symbols fall through the Go switch and do nothing. -/
def WriteSymbol (w : Writer) (s : Symbol) : Except String Writer :=
  match s.type with
  | .id =>
    match inst s.val with
    | some f => .ok { w with buf := w.buf ++ [f.op], pc := (w.pc + 1) % U32 }
    | none => .ok (WriteAddr { w with addr := w.addr ++ [(w.pc, s.val)] } 0)
  | .label =>
    match lookupStr w.lab s.val with
    | some _ => .error ("redefining label '" ++ s.val ++ "'")
    | none => .ok { w with lab := w.lab ++ [(s.val, w.pc)] }
  | .reg =>
    match parseAtoi s.val with
    | none => .error ("bad register '" ++ s.val ++ "'")
    | some r => .ok { w with buf := w.buf ++ [byteOfInt r], pc := (w.pc + 1) % U32 }
  | .addr =>
    match parseHex32 s.val with
    | none => .error ("bad address '" ++ s.val ++ "'")
    | some a => .ok (WriteAddr w (u32OfInt a))
  | _ => .ok w

/-- Patch one 4-byte slot: `b[i] = byte(l); b[i+1] = byte(l >> 8); ...`. -/
def patchOne (b : List Nat) (i l : Nat) : List Nat :=
  ((((b.set i (l % 256)).set (i + 1) (l / 256 % 256)).set
      (i + 2) (l / 65536 % 256)).set (i + 3) (l / 16777216 % 256))

/-- The patch loop of `Writer.Write`: for each recorded `(offset, name)`,
resolve the label or fail with `<name>: no such label`; the four byte stores
panic if the slot runs past the buffer (impossible for buffers produced by
`WriteSymbol`, which emits the 4 placeholder bytes when recording a patch). -/
def patchAll (lab : List (String × Nat)) : List (Nat × String) → List Nat → Res (Except String (List Nat))
  | [], b => .ok (.ok b)
  | (i, n) :: rest, b =>
    match lookupStr lab n with
    | none => .ok (.error (n ++ ": no such label"))
    | some l =>
      if i + 4 ≤ b.length then patchAll lab rest (patchOne b i l)
      else .panic

/-- The object-file magic header `Hdr` = `48 59 50 00`. -/
def Hdr : List Nat := [72, 89, 80, 0]

/-- `Writer.Write`: patch all recorded slots, then write the header and the
code buffer to the sink, surfacing the first sink error. -/
def WriterWrite (sink : List Nat → Except String Nat) (w : Writer) : Res (Except String Nat) :=
  match patchAll w.lab w.addr w.buf with
  | .panic => .panic
  | .ok (.error e) => .ok (.error e)
  | .ok (.ok b) =>
    match sink Hdr with
    | .error e => .ok (.error e)
    | .ok _ => .ok (sink b)

/-- `ErrThreshold`. -/
def ErrThreshold : Nat := 8

/-- Diagnostic accumulator: error count and the lines written to the error
sink `e`. -/
structure GenSt where
  errc : Nat
  diags : List String
deriving DecidableEq, Repr

/-- `werr` inside `Gen`: print `<line>: <message>\n` while `errc <= 8` (so
the first *nine* errors are printed), then count. -/
def werr (st : GenSt) (line : Nat) (msg : String) : GenSt :=
  { errc := st.errc + 1,
    diags :=
      if st.errc ≤ ErrThreshold then st.diags ++ [Nat.repr line ++ ": " ++ msg ++ "\n"]
      else st.diags }

/-- `Gen`'s lexing loop.  The `Bool` result marks the `errc > ErrThreshold`
abort (`invalid file`).  Fuel is `src.length + 1`: every iteration either
finishes or consumes at least one input byte, so the fuel-0 branch is
unreachable from `Gen`. -/
def lexLoop : Nat → List Nat → Nat → GenSt → List Symbol → List Symbol × GenSt × Bool
  | 0, _, _, st, acc => (acc, st, true)
  | fuel + 1, src, lc, st, acc =>
    let r := ReadSym src lc
    let st1 := match r.2.1 with
      | some m => werr st r.1.line m
      | none => st
    if st1.errc > ErrThreshold then (acc, st1, true)
    else
      let acc1 := if r.1.type ≠ .unassigned then acc ++ [r.1] else acc
      if r.1.type = .eof then (acc1, st1, false)
      else lexLoop fuel r.2.2.1 r.2.2.2 st1 acc1

/-- The operand loop of `Gen`'s code generator: one `Expect`/`WriteSymbol`
per declared operand kind, reporting failures without stopping. -/
def operLoop : List SymTy → List Symbol → Writer → GenSt → List Symbol × Writer × GenSt
  | [], syms, w, st => (syms, w, st)
  | t :: ts, syms, w, st =>
    let r := expect t syms
    match r.2.1 with
    | some m => operLoop ts r.2.2 w (werr st r.1.line m)
    | none =>
      match WriteSymbol w r.1 with
      | .ok w1 => operLoop ts r.2.2 w1 st
      | .error m => operLoop ts r.2.2 w (werr st r.1.line m)

/-- `Gen`'s statement loop: `Expect(Id)`, stop at `Eof`, dispatch mnemonics
(their own `WriteSymbol` result is discarded, as in the source) and labels.
When the symbols run out mid-statement the Go loop spins forever on
`bad argument count` (the zero symbol is `Id`, not `Eof`); the fuel-0 branch
stands for that divergence and is unreachable for symbol lists produced by
`lexLoop`, which always end in an `Eof` symbol. -/
def parLoop : Nat → List Symbol → Writer → GenSt → Writer × GenSt
  | 0, _, w, st => (w, st)
  | fuel + 1, syms, w, st =>
    let r := expect .id syms
    if r.1.type = .eof then (w, st)
    else
      match r.2.1 with
      | some m => parLoop fuel r.2.2 w (werr st r.1.line m)
      | none =>
        if r.1.type ≠ .label then
          match inst r.1.val with
          | none => parLoop fuel r.2.2 w (werr st r.1.line ("bad instruction '" ++ r.1.val ++ "'"))
          | some f =>
            let w1 := match WriteSymbol w r.1 with
              | .ok w2 => w2
              | .error _ => w
            let q := operLoop f.params r.2.2 w1 st
            parLoop fuel q.1 q.2.1 q.2.2
        else
          match WriteSymbol w r.1 with
          | .ok w1 => parLoop fuel r.2.2 w1 st
          | .error m => parLoop fuel r.2.2 w (werr st r.1.line m)

/-- `Gen`: lex (aborting with `invalid file` past the error budget), emit,
then summarize — `<n> errors (8 shown)` when over the threshold, `<n>
errors` when positive — and otherwise finalize through `Writer.Write`,
printing (but *not* returning) any sink error.  Result: the symbol list, the
diagnostic lines written to `e`, and the returned Go error. -/
def Gen (src : List Nat) (sink : List Nat → Except String Nat) :
    Res (List Symbol × List String × Option String) :=
  let r := lexLoop (src.length + 1) src 0 ⟨0, []⟩ []
  if r.2.2 then .ok (r.1, r.2.1.diags, some "invalid file")
  else
    let q := parLoop (r.1.length + 1) r.1 writer0 r.2.1
    if q.2.errc > ErrThreshold then
      .ok (r.1, q.2.diags, some (Nat.repr q.2.errc ++ " errors (" ++ Nat.repr ErrThreshold ++ " shown)"))
    else if q.2.errc > 0 then
      .ok (r.1, q.2.diags, some (Nat.repr q.2.errc ++ " errors"))
    else
      match WriterWrite sink q.1 with
      | .panic => .panic
      | .ok (.error e) => .ok (r.1, q.2.diags ++ [e ++ "\n"], none)
      | .ok (.ok _) => .ok (r.1, q.2.diags, none)

end asm

namespace cpu

/-- A freshly loaded machine for object bytes `bs`, as produced by `New` on
a valid object: zero registers, zero memory, `pc = 0`, cursor just past the
4-byte header. -/
def load (bs : List Nat) : Cpu :=
  { reg := fun _ => 0, mem := fun _ => 0, pc := 0, flags := 0, err := none, pos := 4, buf := bs }

/-- Memory whose 32-bit little-endian word at address 0 is `0x12345678`. -/
def ldMem : Nat → Nat :=
  fun j => if j = 0 then 120 else if j = 1 then 86 else if j = 2 then 52 else if j = 3 then 18 else 0

/-- A machine about to execute `ld %1 %2` with register 2 = 0 (an in-bounds
address) and `mem32[0] = 0x12345678`. -/
def ldExample : Cpu := { load [72, 89, 80, 0, 1, 1, 2] with mem := ldMem }

/-- The same machine with register 2 = 4, another in-bounds address. -/
def ldExample4 : Cpu := { ldExample with reg := fun j => if j = 2 then 4 else 0 }

/-- View of `writeImm`: the Go error value and the four bytes at the target
address, or `none` if the write panicked. -/
def wiView (c : Cpu) (addr imm : Nat) : Option (Option String × Nat × Nat × Nat × Nat) :=
  match writeImm c addr imm with
  | .ok (c1, e) => some (e, c1.mem addr, c1.mem (addr + 1), c1.mem (addr + 2), c1.mem (addr + 3))
  | .panic => none

end cpu

namespace asm

/-- The byte stream of an ASCII source text. -/
def bytesOf (s : String) : List Nat := s.data.map Char.toNat

/-- An output sink whose writes always succeed (e.g. a growing buffer). -/
def sinkOk : List Nat → Except String Nat := fun b => .ok b.length

/-- An output sink whose writes always fail. -/
def sinkBad : List Nat → Except String Nat := fun _ => .error "sink failed"

/-- A source with exactly nine assembly errors (nine unknown mnemonics). -/
def src9 : List Nat := bytesOf "foo\nfoo\nfoo\nfoo\nfoo\nfoo\nfoo\nfoo\nfoo\n"

/-- View of a `Gen` run: the diagnostic lines written to the error sink and
the returned Go error, or `none` if `Gen` panicked. -/
def genView (src : List Nat) (sink : List Nat → Except String Nat) :
    Option (List String × Option String) :=
  match Gen src sink with
  | .ok r => some (r.2.1, r.2.2)
  | .panic => none

end asm

namespace cpu

/-- Claim C1: the spec table says `ld r1, r2` performs `r1 ← mem32[r2]` with
no error for an in-bounds address.  The code does not: with register 2 = 0
and `mem32[0] = 0x12345678` the step completes without error but register 1
still holds 0, because the handler writes the destination only when the
memory read *failed* (`if err != nil { c.writeReg(ins.R1, i) }`); and with
register 2 = 4 — also in bounds — the step panics outright, because
`readImm` slices `c.mem[addr:4]`. -/
theorem ld_discards_loaded_value :
    stepErr ldExample = some none ∧
    le32 (ldExample.mem 0) (ldExample.mem 1) (ldExample.mem 2) (ldExample.mem 3) = 305419896 ∧
    (stepCpu ldExample).reg 1 = 0 ∧
    (step ldExample4).isPanic = true := by
  refine ⟨by decide, by decide, by decide, by decide⟩

/-- Claim C2: the spec requires register indices `< 8`, with `r ≥ 8`
faulting (err latched, `flags |= 1`) and the register file never indexed out
of bounds.  The code's guard is `r > len(c.reg)`, i.e. `r > 8`: index 8
passes `checkReg` untouched and then panics inside `c.reg[8]` on both read
and write; only `r ≥ 9` faults as specified (message `invalid register %02x`,
flags bit 0).  `p` (`ops[asm.OpP]`) indexes `c.reg[R]` with no check at all,
so `p %8` panics the interpreter.  Indices `≤ 7` pass with no flag change. -/
theorem register_bound_off_by_one :
    (checkReg (load []) 7).err = none ∧ (checkReg (load []) 7).flags = 0 ∧
    (checkReg (load []) 8).err = none ∧ (checkReg (load []) 8).flags = 0 ∧
    (readReg (load []) 8).isPanic = true ∧
    (writeReg (load []) 8 5).isPanic = true ∧
    (checkReg (load []) 9).err = some "invalid register 09" ∧
    (checkReg (load []) 9).flags = 1 ∧
    (step (load [72, 89, 80, 0, 8, 8])).isPanic = true := by
  refine ⟨by decide, by decide, by decide, by decide, by decide, by decide, by decide,
    by decide, by decide⟩

/-- Claim C3: the spec requires 32-bit accesses at `a ≤ 8188` to succeed and
`a ≥ 8189` to fail with an error, the memory never indexed out of bounds.
The code's guard is `addr > len(c.mem)`, i.e. `addr > 8192`: a store at 8188
does succeed, but stores at 8189..8192 pass the guard and panic on the byte
writes past index 8191; only `addr ≥ 8193` produces `illegal write`.  Reads
are worse: `c.mem[addr:4]` makes every address except 0 panic (shown at 4
and 8188), so in-bounds reads fail too. -/
theorem memory_bound_gap :
    wiView (load []) 8188 305419896 = some (none, 120, 86, 52, 18) ∧
    (writeImm (load []) 8189 0).isPanic = true ∧
    (writeImm (load []) 8192 0).isPanic = true ∧
    wiView (load []) 8193 7 = some (some "illegal write 00000007 (at 00002001)", 0, 0, 0, 0) ∧
    readImm (load []) 0 = .ok (.ok 0) ∧
    readImm (load []) 4 = .panic ∧
    readImm (load []) 8188 = .panic ∧
    readImm (load []) 8193 = .ok (.error ("illegal read 00002001")) := by
  refine ⟨by decide, by decide, by decide, by decide, by decide, by decide, by decide,
    by decide⟩

end cpu

namespace asm

/-- Claim C5: the spec says a source with exactly 9 errors produces 8
diagnostics and the summary `9 errors (8 shown)`.  The summary is right but
the count of printed diagnostics is not: `werr` prints while `errc <=
ErrThreshold` *before* incrementing, so errors 1 through 9 are all printed —
nine `<line>: <message>` lines, contradicting the `(8 shown)` text the same
run returns.  (Sources with 1..8 errors do get one line each and `<n>
errors`, shown here for a 3-error source.) -/
theorem nine_errors_print_nine_diagnostics :
    genView src9 sinkOk =
      some (["1: bad instruction 'foo'\n", "2: bad instruction 'foo'\n",
             "3: bad instruction 'foo'\n", "4: bad instruction 'foo'\n",
             "5: bad instruction 'foo'\n", "6: bad instruction 'foo'\n",
             "7: bad instruction 'foo'\n", "8: bad instruction 'foo'\n",
             "9: bad instruction 'foo'\n"], some "9 errors (8 shown)") ∧
    genView (bytesOf "foo\nfoo\nfoo\nexit\n") sinkOk =
      some (["1: bad instruction 'foo'\n", "2: bad instruction 'foo'\n",
             "3: bad instruction 'foo'\n"], some "3 errors") := by
  refine ⟨by decide, by decide⟩

/-- Claim C6: the spec says `$ffffffff` parses (address literals are
unsigned hex up to 32 bits).  The code parses address literals with
`strconv.ParseInt(v, 16, 32)` — *signed* 32-bit — so `ffffffff` (= 2^32 − 1)
is a range error and `WriteSymbol` rejects it with `bad address 'ffffffff'`;
a full assembly of `lr $ffffffff %0` fails with one diagnostic.  Literals up
to `7fffffff` parse and round-trip. -/
theorem address_literal_ffffffff_rejected :
    parseHex32 "ffffffff" = none ∧
    WriteSymbol writer0 { type := .addr, val := "ffffffff", line := 1 } =
      .error "bad address 'ffffffff'" ∧
    genView (bytesOf "lr $ffffffff %0\nexit\n") sinkOk =
      some (["0: bad address 'ffffffff'\n"], some "1 errors") ∧
    parseHex32 "7fffffff" = some 2147483647 ∧
    WriteSymbol writer0 { type := .addr, val := "7fffffff", line := 1 } =
      .ok { buf := [255, 255, 255, 127], pc := 4, lab := [], addr := [] } := by
  refine ⟨by decide, by decide, by decide, by decide, by decide⟩

/-- Claim C9: when the source assembles cleanly but the output sink fails,
`Gen` prints the write error to the diagnostic writer and still returns a
nil error — the failure is not propagated.  Witnessed by the valid source
`exit` against an always-failing sink; the same source against a working
sink returns the same nil error with no diagnostics. -/
theorem sink_failure_not_propagated :
    genView (bytesOf "exit\n") sinkBad = some (["sink failed\n"], none) ∧
    genView (bytesOf "exit\n") sinkOk = some ([], none) := by
  refine ⟨by decide, by decide⟩

end asm

namespace asm

/-- A token that runs into end of input never sees a whitespace byte, so
`ReadToken` fails with the `ReadByte` error. -/
theorem ReadToken_eq_none (l : List Nat) (lc : Nat)
    (h : ∀ b ∈ l, isSpace b = false) : ReadToken l lc = none := by
  induction l generalizing lc with
  | nil => rfl
  | cons c rest ih =>
    have hc : isSpace c = false := h c (List.mem_cons_self c rest)
    have hrest : ∀ b ∈ rest, isSpace b = false := fun b hb => h b (List.mem_cons_of_mem _ hb)
    simp only [ReadToken, hc, Bool.false_eq_true, if_false, ih _ hrest]

/-- Every Latin-1 letter byte is graphic. -/
theorem isLetter_isGraphic (c : Nat) (h : isLetter c = true) : isGraphic c = true := by
  simp only [isLetter, Bool.or_eq_true, Bool.and_eq_true, decide_eq_true_eq, beq_iff_eq] at h
  simp only [isGraphic, Bool.or_eq_true, Bool.and_eq_true, decide_eq_true_eq, bne_iff_ne, ne_eq]
  omega

/-- Claim C10: whenever the final token of the source (letter-initial
identifier or `%`/`$`-prefixed literal) reaches end of input with no
trailing whitespace byte, `ReadToken`'s `ReadByte` failure makes `Read` turn
the partially-read token into the EOF symbol with no error: the token's
characters are silently discarded (the symbol's `Val` is empty, so nothing
is ever emitted for it), e.g. for the one-line source `exit` without a final
newline. -/
theorem token_at_eof_is_discarded (c : Nat) (ts : List Nat) (lc : Nat)
    (hstart : isLetter c = true ∨ c = 36 ∨ c = 37)
    (hns : ∀ b ∈ c :: ts, isSpace b = false) :
    ReadSym (c :: ts) lc = ({ type := .eof, val := "", line := 0 }, none, [], lc) := by
  have hcs : isSpace c = false := hns c (List.mem_cons_self c ts)
  have hts : ∀ b ∈ ts, isSpace b = false := fun b hb => hns b (List.mem_cons_of_mem _ hb)
  have hc35 : (c == 35) = false := by
    rcases hstart with h | h | h
    · rw [beq_eq_false_iff_ne]
      intro e
      rw [e] at h
      exact absurd h (by decide)
    · rw [h]; decide
    · rw [h]; decide
  have hc10 : (c == 10) = false := by
    rw [beq_eq_false_iff_ne]
    intro e
    rw [e] at hcs
    exact absurd hcs (by decide)
  have hcg : isGraphic c = true := by
    rcases hstart with h | h | h
    · exact isLetter_isGraphic c h
    · rw [h]; decide
    · rw [h]; decide
  rcases hstart with h | h | h
  · have h37 : (c == 37) = false := by
      rw [beq_eq_false_iff_ne]; intro e; rw [e] at h; exact absurd h (by decide)
    have h36 : (c == 36) = false := by
      rw [beq_eq_false_iff_ne]; intro e; rw [e] at h; exact absurd h (by decide)
    simp only [ReadSym, hc35, Bool.false_eq_true, if_false, hc10, hcs, hcg, Bool.not_true,
      h37, h36, Bool.or_self, h, if_true, ReadToken_eq_none (c :: ts) lc hns]
  · rw [h]
    simp [ReadSym, ReadToken_eq_none ts lc hts, isSpace, isGraphic]
  · rw [h]
    simp [ReadSym, ReadToken_eq_none ts lc hts, isSpace, isGraphic]

/-- Witness for C10 at the source `exit` (bytes `101 120 105 116`) with no
trailing newline. -/
theorem token_at_eof_is_discarded_witness :
    ReadSym [101, 120, 105, 116] 0 = ({ type := .eof, val := "", line := 0 }, none, [], 0) :=
  token_at_eof_is_discarded 101 [120, 105, 116] 0 (by decide) (by decide)

end asm

namespace asm

/-- Two patch slots occupy disjoint 4-byte ranges. -/
def slotsDisjoint (p q : Nat × String) : Prop := p.1 + 4 ≤ q.1 ∨ q.1 + 4 ≤ p.1

/-- `patchOne` does not change the buffer length. -/
theorem patchOne_length (b : List Nat) (i l : Nat) :
    (patchOne b i l).length = b.length := by
  simp [patchOne]

/-- Bytes outside the 4-byte slot are untouched by `patchOne`. -/
theorem patchOne_get_outside (b : List Nat) (i l j : Nat) (h : j < i ∨ i + 4 ≤ j) :
    (patchOne b i l)[j]? = b[j]? := by
  unfold patchOne
  rw [List.getElem?_set_ne (by omega), List.getElem?_set_ne (by omega),
    List.getElem?_set_ne (by omega), List.getElem?_set_ne (by omega)]

/-- The 4-byte slot holds the little-endian value after `patchOne`. -/
theorem patchOne_get_at (b : List Nat) (i l : Nat) (h : i + 4 ≤ b.length) :
    (patchOne b i l)[i]? = some (l % 256) ∧
    (patchOne b i l)[i + 1]? = some (l / 256 % 256) ∧
    (patchOne b i l)[i + 2]? = some (l / 65536 % 256) ∧
    (patchOne b i l)[i + 3]? = some (l / 16777216 % 256) := by
  unfold patchOne
  refine ⟨?_, ?_, ?_, ?_⟩
  · rw [List.getElem?_set_ne (by omega), List.getElem?_set_ne (by omega),
      List.getElem?_set_ne (by omega), List.getElem?_set_eq_of_lt _ (by omega)]
  · rw [List.getElem?_set_ne (by omega), List.getElem?_set_ne (by omega),
      List.getElem?_set_eq_of_lt _ (by simp; omega)]
  · rw [List.getElem?_set_ne (by omega), List.getElem?_set_eq_of_lt _ (by simp; omega)]
  · rw [List.getElem?_set_eq_of_lt _ (by simp; omega)]

/-- A successful patch loop leaves bytes outside every slot unchanged. -/
theorem patchAll_preserves (lab : List (String × Nat)) (ps : List (Nat × String)) :
    ∀ b b' j, patchAll lab ps b = .ok (.ok b') →
    (∀ p ∈ ps, j < p.1 ∨ p.1 + 4 ≤ j) →
    b'[j]? = b[j]? := by
  induction ps with
  | nil =>
    intro b b' j h _
    simp only [patchAll] at h
    cases h
    rfl
  | cons p rest ih =>
    intro b b' j h hd
    obtain ⟨i, n⟩ := p
    cases hl : lookupStr lab n with
    | none =>
      simp only [patchAll, hl] at h
      simp at h
    | some l =>
      simp only [patchAll, hl] at h
      by_cases hb : i + 4 ≤ b.length
      · rw [if_pos hb] at h
        rw [ih _ _ j h (fun q hq => hd q (List.mem_cons_of_mem _ hq))]
        exact patchOne_get_outside b i l j (hd (i, n) (List.mem_cons_self _ _))
      · rw [if_neg hb] at h
        cases h

end asm

namespace asm

/-- A successful patch loop preserves the buffer length. -/
theorem patchAll_length (lab : List (String × Nat)) (ps : List (Nat × String)) :
    ∀ b b', patchAll lab ps b = .ok (.ok b') → b'.length = b.length := by
  induction ps with
  | nil =>
    intro b b' h
    simp only [patchAll] at h
    cases h
    rfl
  | cons p rest ih =>
    intro b b' h
    obtain ⟨i, n⟩ := p
    cases hl : lookupStr lab n with
    | none =>
      simp only [patchAll, hl] at h
      simp at h
    | some l =>
      simp only [patchAll, hl] at h
      by_cases hb : i + 4 ≤ b.length
      · rw [if_pos hb] at h
        rw [ih _ _ h, patchOne_length]
      · rw [if_neg hb] at h
        cases h

/-- When every recorded label resolves and the slots are in bounds and
pairwise disjoint, the patch loop succeeds and every slot holds the
little-endian bytes of its label's offset. -/
theorem patchAll_resolves (lab : List (String × Nat)) (ps : List (Nat × String)) :
    ∀ b, (∀ p ∈ ps, (lookupStr lab p.2).isSome = true) →
    (∀ p ∈ ps, p.1 + 4 ≤ b.length) →
    ps.Pairwise slotsDisjoint →
    ∃ b', patchAll lab ps b = .ok (.ok b') ∧
      ∀ i n k, (i, n) ∈ ps → lookupStr lab n = some k →
        b'[i]? = some (k % 256) ∧ b'[i + 1]? = some (k / 256 % 256) ∧
        b'[i + 2]? = some (k / 65536 % 256) ∧ b'[i + 3]? = some (k / 16777216 % 256) := by
  induction ps with
  | nil =>
    intro b _ _ _
    exact ⟨b, rfl, by intro i n k h; cases h⟩
  | cons p rest ih =>
    intro b hres hbnd hdis
    obtain ⟨i0, n0⟩ := p
    have h0 := hres (i0, n0) (List.mem_cons_self _ _)
    cases hl : lookupStr lab n0 with
    | none =>
      rw [hl] at h0
      cases h0
    | some l0 =>
      have hb0 : i0 + 4 ≤ b.length := hbnd _ (List.mem_cons_self _ _)
      obtain ⟨b', hb', hbytes⟩ := ih (patchOne b i0 l0)
        (fun q hq => hres q (List.mem_cons_of_mem _ hq))
        (fun q hq => by rw [patchOne_length]; exact hbnd q (List.mem_cons_of_mem _ hq))
        hdis.of_cons
      have hdisr : ∀ j, i0 ≤ j → j < i0 + 4 → ∀ q ∈ rest, j < q.1 ∨ q.1 + 4 ≤ j := by
        intro j h1 h2 q hq
        rcases (List.pairwise_cons.mp hdis).1 q hq with h | h
        · left; exact Nat.lt_of_lt_of_le h2 h
        · right; omega
      refine ⟨b', by simp only [patchAll, hl, if_pos hb0]; exact hb', ?_⟩
      intro i n k hmem hk
      rcases List.mem_cons.mp hmem with he | hrest2
      · obtain ⟨e1, e2⟩ := Prod.mk.injEq _ _ _ _ ▸ he
        subst e1
        subst e2
        rw [hl] at hk
        obtain rfl : l0 = k := Option.some.inj hk
        obtain ⟨g0, g1, g2, g3⟩ := patchOne_get_at b i l0 hb0
        refine ⟨?_, ?_, ?_, ?_⟩
        · rw [patchAll_preserves lab rest _ _ i hb' (hdisr i (by omega) (by omega)), g0]
        · rw [patchAll_preserves lab rest _ _ (i + 1) hb' (hdisr _ (by omega) (by omega)), g1]
        · rw [patchAll_preserves lab rest _ _ (i + 2) hb' (hdisr _ (by omega) (by omega)), g2]
        · rw [patchAll_preserves lab rest _ _ (i + 3) hb' (hdisr _ (by omega) (by omega)), g3]
      · exact hbytes i n k hrest2 hk

/-- When some recorded label is undefined (and the slots are in bounds, so
no store panics first), the patch loop fails with `<name>: no such label`
for an undefined name. -/
theorem patchAll_missing (lab : List (String × Nat)) (ps : List (Nat × String)) :
    ∀ b i n, (i, n) ∈ ps → lookupStr lab n = none →
    (∀ p ∈ ps, p.1 + 4 ≤ b.length) →
    ∃ m, lookupStr lab m = none ∧
      patchAll lab ps b = .ok (.error (m ++ ": no such label")) := by
  induction ps with
  | nil =>
    intro b i n h
    cases h
  | cons p rest ih =>
    intro b i n hmem hn hbnd
    obtain ⟨i0, n0⟩ := p
    cases hl : lookupStr lab n0 with
    | none => exact ⟨n0, hl, by simp only [patchAll, hl]⟩
    | some l0 =>
      have hb0 : i0 + 4 ≤ b.length := hbnd _ (List.mem_cons_self _ _)
      rcases List.mem_cons.mp hmem with he | hrest2
      · obtain ⟨e1, e2⟩ := Prod.mk.injEq _ _ _ _ ▸ he
        subst e2
        rw [hn] at hl
        cases hl
      · obtain ⟨m, hm1, hm2⟩ := ih (patchOne b i0 l0) i n hrest2 hn
          (fun q hq => by rw [patchOne_length]; exact hbnd q (List.mem_cons_of_mem _ hq))
        exact ⟨m, hm1, by simp only [patchAll, hl, if_pos hb0]; exact hm2⟩

/-- Claim C7: in `Writer.Write`, every recorded Address-position reference
`(offset, name)` whose label `name` is defined at code offset `k` is patched
so that the four buffer bytes starting at `offset` hold the little-endian
encoding of `k` (slots recorded by `WriteSymbol` are in bounds and pairwise
disjoint, each having emitted its own 4 placeholder bytes); and if any
referenced label is undefined, the patch loop fails with
`<name>: no such label`. -/
theorem label_patching (lab : List (String × Nat)) (ps : List (Nat × String)) (b : List Nat)
    (hbnd : ∀ p ∈ ps, p.1 + 4 ≤ b.length) :
    ((∀ p ∈ ps, (lookupStr lab p.2).isSome = true) → ps.Pairwise slotsDisjoint →
      ∃ b', patchAll lab ps b = .ok (.ok b') ∧ b'.length = b.length ∧
        ∀ i n k, (i, n) ∈ ps → lookupStr lab n = some k →
          [b'[i]?, b'[i + 1]?, b'[i + 2]?, b'[i + 3]?] = (le32bytes k).map some) ∧
    (∀ i n, (i, n) ∈ ps → lookupStr lab n = none →
      ∃ m, lookupStr lab m = none ∧
        patchAll lab ps b = .ok (.error (m ++ ": no such label"))) := by
  constructor
  · intro hres hdis
    obtain ⟨b', h1, h2⟩ := patchAll_resolves lab ps b hres hbnd hdis
    refine ⟨b', h1, patchAll_length lab ps b b' h1, ?_⟩
    intro i n k hmem hk
    obtain ⟨g0, g1, g2, g3⟩ := h2 i n k hmem hk
    simp [le32bytes, g0, g1, g2, g3]
  · intro i n hmem hn
    exact patchAll_missing lab ps b i n hmem hn hbnd

/-- Witness for C7: a single patch slot at offset 1 resolving to label
offset 7, and a missing label `y`. -/
theorem label_patching_witness :
    (∃ b', patchAll [("x", 7)] [(1, "x")] [9, 0, 0, 0, 0] = .ok (.ok b') ∧
      b'.length = 5 ∧
      ∀ i n k, (i, n) ∈ ([(1, "x")] : List (Nat × String)) →
        lookupStr [("x", 7)] n = some k →
        [b'[i]?, b'[i + 1]?, b'[i + 2]?, b'[i + 3]?] = (le32bytes k).map some) ∧
    (∃ m, lookupStr ([] : List (String × Nat)) m = none ∧
      patchAll [] [(0, "y")] [0, 0, 0, 0] = .ok (.error (m ++ ": no such label"))) := by
  constructor
  · exact (label_patching [("x", 7)] [(1, "x")] [9, 0, 0, 0, 0] (by decide)).1
      (by decide) (by simp [slotsDisjoint])
  · exact (label_patching [] [(0, "y")] [0, 0, 0, 0] (by decide)).2 0 "y"
      (by decide) (by decide)

end asm

namespace cpu

/-- Shift a known suffix of a list by one element. -/
theorem drop_succ_of_drop (l : List Nat) (m a : Nat) (xs : List Nat)
    (h : l.drop m = a :: xs) : l.drop (m + 1) = xs := by
  have h2 := congrArg List.tail h
  rw [← List.drop_one, List.drop_drop] at h2
  simpa using h2

/-- Executing `call` at code offset `o` (object bytes `15 b0 b1 b2 b3` at
buffer position `o + 4`): one step writes `o + 5` — the offset just past the
5-byte call — into register 3 and jumps to the target `t`, with no error. -/
theorem call_step (c : Cpu) (o t b0 b1 b2 b3 : Nat)
    (herr : c.err = none)
    (hpc : c.pc = o) (hpos : c.pos = o + 4)
    (h5 : (c.buf.drop (o + 4)).take 5 = [15, b0, b1, b2, b3])
    (ht : t = le32 b0 b1 b2 b3)
    (ho : o + 9 < U32) (htl : t + 6 < U32) :
    step c = .ok ({ c with
      reg := fun j => if j = 3 then o + 5 else c.reg j,
      pc := t, pos := t + 4 }, none) := by
  have hlen : o + 9 ≤ c.buf.length := by
    have h := congrArg List.length h5
    simp [List.length_take, List.length_drop] at h
    omega
  have hsplit5 : c.buf.drop (o + 4) = 15 :: ([b0, b1, b2, b3] ++ c.buf.drop (o + 9)) := by
    have h := List.take_append_drop 5 (c.buf.drop (o + 4))
    rw [h5, List.drop_drop] at h
    have h9 : o + 4 + 5 = o + 9 := by omega
    rw [h9] at h
    exact h.symm
  have htake1 : (c.buf.drop (o + 4)).take 1 = [15] := by rw [hsplit5]; rfl
  have hdrop5 : c.buf.drop (o + 5) = [b0, b1, b2, b3] ++ c.buf.drop (o + 9) := by
    have h := drop_succ_of_drop _ _ _ _ hsplit5
    have h9 : o + 4 + 1 = o + 5 := by omega
    rw [h9] at h
    exact h
  have htake4 : (c.buf.drop (o + 5)).take 4 = [b0, b1, b2, b3] := by
    rw [hdrop5]
    exact List.take_left' rfl
  have hc1 : o + 4 + 1 ≤ c.buf.length := by omega
  have hc4 : o + 4 + 1 + 4 ≤ c.buf.length := by omega
  have hi : o + 4 + 1 = o + 5 := by omega
  have hU : U32 = 4294967296 := rfl
  rw [hU] at ho htl
  have hm1 : (o + 1) % U32 = o + 1 := Nat.mod_eq_of_lt (by rw [hU]; omega)
  have hm5 : (o + 1 + 4) % U32 = o + 5 := Nat.mod_eq_of_lt (by rw [hU]; omega)
  have hmt : (t + 0) % U32 = t := Nat.mod_eq_of_lt (by rw [hU]; omega)
  have hmt4 : (t + hdrLen) % U32 = t + 4 := by
    simp only [hdrLen]
    exact Nat.mod_eq_of_lt (by rw [hU]; omega)
  have hT : le32 b0 b1 b2 b3 = t := ht.symm
  have hc4 : o + 5 + 4 ≤ c.buf.length := by omega
  simp only [step, readB, hpc, hpos, hc1, if_true, htake1, herr, List.getD_cons_zero,
    List.getD_cons_succ, hi, hm1]
  rw [if_neg (by decide : ¬((15 : Nat) > 16))]
  simp only [exec, readB, hc4, if_true, htake4, List.getD_cons_zero, List.getD_cons_succ,
    writeReg, checkReg, regLen, jump, hm5, hmt, hmt4, hT]
  norm_num
  rw [hU]
  omega

end cpu

namespace cpu

/-- Executing `jr %3` (object bytes `14 3`) at the cursor: one step jumps to
the value `v` held in register 3, with no error. -/
theorem jr_step (c : Cpu) (t v : Nat)
    (herr : c.err = none)
    (hpos : c.pos = t + 4)
    (h2 : (c.buf.drop (t + 4)).take 2 = [14, 3])
    (hreg : c.reg 3 = v)
    (hv : v + 4 < U32) :
    step c = .ok ({ c with pc := v, pos := v + 4 }, none) := by
  have hlen : t + 6 ≤ c.buf.length := by
    have h := congrArg List.length h2
    simp [List.length_take, List.length_drop] at h
    omega
  have hsplit2 : c.buf.drop (t + 4) = 14 :: ([3] ++ c.buf.drop (t + 6)) := by
    have h := List.take_append_drop 2 (c.buf.drop (t + 4))
    rw [h2, List.drop_drop] at h
    have h6 : t + 4 + 2 = t + 6 := by omega
    rw [h6] at h
    exact h.symm
  have htake1 : (c.buf.drop (t + 4)).take 1 = [14] := by rw [hsplit2]; rfl
  have hdrop1 : c.buf.drop (t + 5) = [3] ++ c.buf.drop (t + 6) := by
    have h := drop_succ_of_drop _ _ _ _ hsplit2
    have h6 : t + 4 + 1 = t + 5 := by omega
    rw [h6] at h
    exact h
  have htake1b : (c.buf.drop (t + 5)).take 1 = [3] := by rw [hdrop1]; rfl
  have hc1 : t + 4 + 1 ≤ c.buf.length := by omega
  have hi : t + 4 + 1 = t + 5 := by omega
  have hc2 : t + 5 + 1 ≤ c.buf.length := by omega
  have hU : U32 = 4294967296 := rfl
  have hmv : (v + hdrLen) % U32 = v + 4 := by
    simp only [hdrLen]
    exact Nat.mod_eq_of_lt (by rw [hU]; omega)
  have hmv0 : (v + 0) % U32 = v := Nat.mod_eq_of_lt (by rw [hU]; omega)
  simp only [step, readB, hpos, hc1, if_true, htake1, herr, List.getD_cons_zero, hi]
  rw [if_neg (by decide : ¬((14 : Nat) > 16))]
  simp only [exec, readB, hc2, if_true, htake1b, List.getD_cons_zero,
    readReg, checkReg, regLen, jump, hreg, hmv, hmv0]
  norm_num
  rw [hreg]
  exact ⟨by rw [hU]; omega, hmv⟩

/-- Claim C8: for every execution of `call` at code offset `o`, register 3
is set to `o + 5` (the offset of the instruction after the 5-byte call)
before the jump; a subsequent `jr %3` at the call target, with no
intervening write to register 3, resumes execution at offset `o + 5` (both
`pc` and the cursor, at `o + 9 = (o + 5) + 4`, point there). -/
theorem call_then_jr_returns (c : Cpu) (o t b0 b1 b2 b3 : Nat)
    (herr : c.err = none) (hpc : c.pc = o) (hpos : c.pos = o + 4)
    (h5 : (c.buf.drop (o + 4)).take 5 = [15, b0, b1, b2, b3])
    (ht : t = le32 b0 b1 b2 b3)
    (h2 : (c.buf.drop (t + 4)).take 2 = [14, 3])
    (ho : o + 9 < U32) (htl : t + 6 < U32) :
    ∃ c1 c2, step c = .ok (c1, none) ∧ c1.reg 3 = o + 5 ∧ c1.pc = t ∧
      step c1 = .ok (c2, none) ∧ c2.pc = o + 5 ∧ c2.pos = o + 9 := by
  have h1 := call_step c o t b0 b1 b2 b3 herr hpc hpos h5 ht ho htl
  refine ⟨_, _, h1, by simp, rfl, jr_step _ t (o + 5) herr rfl h2 (by simp) ?_, rfl, by
    show o + 5 + 4 = o + 9
    omega⟩
  rw [show U32 = 4294967296 from rfl] at ho ⊢
  omega

/-- Witness for C8: `call $6` at offset 0 followed (at target offset 6) by
`jr %3`; after the two steps the machine resumes at offset 5. -/
theorem call_then_jr_returns_witness :
    ∃ c1 c2, step (load [72, 89, 80, 0, 15, 6, 0, 0, 0, 0, 14, 3]) = .ok (c1, none) ∧
      c1.reg 3 = 0 + 5 ∧ c1.pc = 6 ∧
      step c1 = .ok (c2, none) ∧ c2.pc = 0 + 5 ∧ c2.pos = 0 + 9 :=
  call_then_jr_returns (load [72, 89, 80, 0, 15, 6, 0, 0, 0, 0, 14, 3]) 0 6 6 0 0 0
    rfl rfl rfl (by decide) (by decide) (by decide) (by decide) (by decide)

end cpu

namespace cpu

/-- `checkReg` touches only `err` and `flags`. -/
theorem checkReg_fields (c : Cpu) (r : Nat) :
    (checkReg c r).pos = c.pos ∧ (checkReg c r).pc = c.pc ∧ (checkReg c r).buf = c.buf := by
  unfold checkReg
  split <;> simp

/-- A read that leaves `err` unset advanced the cursor by exactly `n` and
changed nothing else (and `err` was unset before). -/
theorem readB_ok (c : Cpu) (n : Nat) (h : (readB c n).1.err = none) :
    c.err = none ∧ (readB c n).1.pos = c.pos + n ∧ (readB c n).1.pc = c.pc ∧
    (readB c n).1.buf = c.buf := by
  unfold readB at *
  split at h <;> simp_all

/-- A non-panicking register read leaves `pos`, `pc` and `buf` unchanged. -/
theorem readReg_ok (c : Cpu) (r : Nat) (c' : Cpu) (v : Nat) (h : readReg c r = .ok (c', v)) :
    c'.pos = c.pos ∧ c'.pc = c.pc ∧ c'.buf = c.buf := by
  obtain ⟨f1, f2, f3⟩ := checkReg_fields c r
  unfold readReg at h
  rcases hce : (checkReg c r).err with _ | e
  · simp only [hce] at h
    by_cases hlt : r < regLen
    · simp only [if_pos hlt] at h
      cases h
      exact ⟨f1, f2, f3⟩
    · simp only [if_neg hlt] at h
      cases h
  · simp only [hce] at h
    cases h
    exact ⟨f1, f2, f3⟩

/-- A non-panicking register write leaves `pos`, `pc` and `buf` unchanged. -/
theorem writeReg_ok (c : Cpu) (r i : Nat) (c' : Cpu) (h : writeReg c r i = .ok c') :
    c'.pos = c.pos ∧ c'.pc = c.pc ∧ c'.buf = c.buf := by
  obtain ⟨f1, f2, f3⟩ := checkReg_fields c r
  unfold writeReg at h
  rcases hce : (checkReg c r).err with _ | e
  · simp only [hce] at h
    by_cases hlt : r < regLen
    · simp only [if_pos hlt] at h
      cases h
      exact ⟨f1, f2, f3⟩
    · simp only [if_neg hlt] at h
      cases h
  · simp only [hce] at h
    cases h
    exact ⟨f1, f2, f3⟩

/-- A register write on a machine with a latched error keeps some error
latched (the write is suppressed). -/
theorem writeReg_err (c : Cpu) (r i : Nat) (c' : Cpu) (e : String)
    (hce : c.err = some e) (h : writeReg c r i = .ok c') : c'.err.isSome = true := by
  unfold writeReg checkReg at h
  split at h <;> simp_all <;> (cases h; simp_all)

/-- A non-panicking memory store changes only `mem`. -/
theorem writeImm_ok (c : Cpu) (a i : Nat) (c' : Cpu) (e : Option String)
    (h : writeImm c a i = .ok (c', e)) :
    c'.pos = c.pos ∧ c'.pc = c.pc ∧ c'.buf = c.buf ∧ c'.err = c.err := by
  unfold writeImm at h
  split at h
  · cases h
    simp
  · split at h
    · cases h
      simp
    · cases h

end cpu

namespace cpu

/-- Every handler that returns normally with no latched error leaves the
cursor exactly `n + 4` bytes past the (32-bit) `pc`, where `n` is the
operand byte count it reports: fall-through handlers consume exactly the
bytes they report, and control transfers report 0 and resynchronize through
`jump`.  Established by exhausting the 17 opcodes of the dispatch table. -/
theorem exec_sync (op : Nat) (c c3 : Cpu) (n : Nat)
    (h16 : op ≤ 16)
    (hx : exec op c = .ok (c3, n))
    (he : c3.err = none)
    (hinv : c.pos % U32 = (c.pc + 4) % U32) :
    c3.pos % U32 = (c3.pc + (n + 4)) % U32 := by
  have hU : U32 = 4294967296 := rfl
  interval_cases op
  -- 0: nop
  · simp only [exec] at hx
    rw [Res.ok.injEq, Prod.mk.injEq] at hx
    obtain ⟨rfl, rfl⟩ := hx
    rw [hU] at hinv ⊢
    omega
  -- 1: ld
  · simp only [exec] at hx
    rcases hb : (readB c 2).1.err with _ | e
    · simp only [hb] at hx
      obtain ⟨hbe, hbp, hbc, hbb⟩ := readB_ok c 2 hb
      split at hx
      · cases hx
      · rename_i c4 v1 heq
        obtain ⟨h4p, h4c, h4b⟩ := readReg_ok _ _ _ _ heq
        split at hx
        · cases hx
        · rw [Res.ok.injEq, Prod.mk.injEq] at hx
          obtain ⟨rfl, rfl⟩ := hx
          dsimp only
          rw [hU] at hinv ⊢
          omega
        · rename_i e2 _
          split at hx
          · cases hx
          · rename_i c6 heqw
            rw [Res.ok.injEq, Prod.mk.injEq] at hx
            obtain ⟨rfl, rfl⟩ := hx
            have hse := writeReg_err _ _ _ _ e2 rfl heqw
            rw [he] at hse
            cases hse
    · simp only [hb] at hx
      rw [Res.ok.injEq, Prod.mk.injEq] at hx
      obtain ⟨rfl, rfl⟩ := hx
      rw [hb] at he
      cases he
  -- 2: lr
  · simp only [exec] at hx
    rcases hb : (readB c 5).1.err with _ | e
    · simp only [hb] at hx
      obtain ⟨hbe, hbp, hbc, hbb⟩ := readB_ok c 5 hb
      split at hx
      · cases hx
      · rename_i c6 heq
        obtain ⟨h6p, h6c, h6b⟩ := writeReg_ok _ _ _ _ heq
        rw [Res.ok.injEq, Prod.mk.injEq] at hx
        obtain ⟨rfl, rfl⟩ := hx
        rw [hU] at hinv ⊢
        omega
    · simp only [hb] at hx
      rw [Res.ok.injEq, Prod.mk.injEq] at hx
      obtain ⟨rfl, rfl⟩ := hx
      rw [hb] at he
      cases he
  -- 3: st
  · simp only [exec] at hx
    rcases hb : (readB c 2).1.err with _ | e
    · simp only [hb] at hx
      obtain ⟨hbe, hbp, hbc, hbb⟩ := readB_ok c 2 hb
      split at hx
      · cases hx
      · rename_i c4 v1 heq
        obtain ⟨h4p, h4c, h4b⟩ := readReg_ok _ _ _ _ heq
        split at hx
        · cases hx
        · rename_i c5 v2 heq2
          obtain ⟨h5p, h5c, h5b⟩ := readReg_ok _ _ _ _ heq2
          split at hx
          · cases hx
          · rename_i c6 e2 heqw
            obtain ⟨h6p, h6c, h6b, h6e⟩ := writeImm_ok _ _ _ _ _ heqw
            rw [Res.ok.injEq, Prod.mk.injEq] at hx
            obtain ⟨rfl, rfl⟩ := hx
            dsimp only
            rw [hU] at hinv ⊢
            omega
    · simp only [hb] at hx
      rw [Res.ok.injEq, Prod.mk.injEq] at hx
      obtain ⟨rfl, rfl⟩ := hx
      rw [hb] at he
      cases he
  -- 4: add
  · simp only [exec] at hx
    rcases hb : (readB c 3).1.err with _ | e
    · simp only [hb] at hx
      obtain ⟨hbe, hbp, hbc, hbb⟩ := readB_ok c 3 hb
      split at hx
      · cases hx
      · rename_i c4 v1 heq
        obtain ⟨h4p, h4c, h4b⟩ := readReg_ok _ _ _ _ heq
        split at hx
        · cases hx
        · rename_i c5 v2 heq2
          obtain ⟨h5p, h5c, h5b⟩ := readReg_ok _ _ _ _ heq2
          split at hx
          · cases hx
          · rename_i c6 heqw
            obtain ⟨h6p, h6c, h6b⟩ := writeReg_ok _ _ _ _ heqw
            rw [Res.ok.injEq, Prod.mk.injEq] at hx
            obtain ⟨rfl, rfl⟩ := hx
            rw [hU] at hinv ⊢
            omega
    · simp only [hb] at hx
      rw [Res.ok.injEq, Prod.mk.injEq] at hx
      obtain ⟨rfl, rfl⟩ := hx
      rw [hb] at he
      cases he
  -- 5: sub
  · simp only [exec] at hx
    rcases hb : (readB c 3).1.err with _ | e
    · simp only [hb] at hx
      obtain ⟨hbe, hbp, hbc, hbb⟩ := readB_ok c 3 hb
      split at hx
      · cases hx
      · rename_i c4 v1 heq
        obtain ⟨h4p, h4c, h4b⟩ := readReg_ok _ _ _ _ heq
        split at hx
        · cases hx
        · rename_i c5 v2 heq2
          obtain ⟨h5p, h5c, h5b⟩ := readReg_ok _ _ _ _ heq2
          split at hx
          · cases hx
          · rename_i c6 heqw
            obtain ⟨h6p, h6c, h6b⟩ := writeReg_ok _ _ _ _ heqw
            rw [Res.ok.injEq, Prod.mk.injEq] at hx
            obtain ⟨rfl, rfl⟩ := hx
            rw [hU] at hinv ⊢
            omega
    · simp only [hb] at hx
      rw [Res.ok.injEq, Prod.mk.injEq] at hx
      obtain ⟨rfl, rfl⟩ := hx
      rw [hb] at he
      cases he
  -- 6: addi
  · simp only [exec] at hx
    rcases hb : (readB c 6).1.err with _ | e
    · simp only [hb] at hx
      obtain ⟨hbe, hbp, hbc, hbb⟩ := readB_ok c 6 hb
      split at hx
      · cases hx
      · rename_i c4 v1 heq
        obtain ⟨h4p, h4c, h4b⟩ := readReg_ok _ _ _ _ heq
        split at hx
        · cases hx
        · rename_i c6 heqw
          obtain ⟨h6p, h6c, h6b⟩ := writeReg_ok _ _ _ _ heqw
          rw [Res.ok.injEq, Prod.mk.injEq] at hx
          obtain ⟨rfl, rfl⟩ := hx
          rw [hU] at hinv ⊢
          omega
    · simp only [hb] at hx
      rw [Res.ok.injEq, Prod.mk.injEq] at hx
      obtain ⟨rfl, rfl⟩ := hx
      rw [hb] at he
      cases he
  -- 7: subi
  · simp only [exec] at hx
    rcases hb : (readB c 6).1.err with _ | e
    · simp only [hb] at hx
      obtain ⟨hbe, hbp, hbc, hbb⟩ := readB_ok c 6 hb
      split at hx
      · cases hx
      · rename_i c4 v1 heq
        obtain ⟨h4p, h4c, h4b⟩ := readReg_ok _ _ _ _ heq
        split at hx
        · cases hx
        · rename_i c6 heqw
          obtain ⟨h6p, h6c, h6b⟩ := writeReg_ok _ _ _ _ heqw
          rw [Res.ok.injEq, Prod.mk.injEq] at hx
          obtain ⟨rfl, rfl⟩ := hx
          rw [hU] at hinv ⊢
          omega
    · simp only [hb] at hx
      rw [Res.ok.injEq, Prod.mk.injEq] at hx
      obtain ⟨rfl, rfl⟩ := hx
      rw [hb] at he
      cases he
  -- 8: p
  · simp only [exec] at hx
    rcases hb : (readB c 1).1.err with _ | e
    · simp only [hb] at hx
      obtain ⟨hbe, hbp, hbc, hbb⟩ := readB_ok c 1 hb
      split at hx
      · rw [Res.ok.injEq, Prod.mk.injEq] at hx
        obtain ⟨rfl, rfl⟩ := hx
        rw [hU] at hinv ⊢
        omega
      · cases hx
    · simp only [hb] at hx
      rw [Res.ok.injEq, Prod.mk.injEq] at hx
      obtain ⟨rfl, rfl⟩ := hx
      rw [hb] at he
      cases he
  -- 9: beq
  · simp only [exec] at hx
    rcases hb : (readB c 6).1.err with _ | e
    · simp only [hb] at hx
      obtain ⟨hbe, hbp, hbc, hbb⟩ := readB_ok c 6 hb
      split at hx
      · cases hx
      · rename_i c4 v1 heq
        obtain ⟨h4p, h4c, h4b⟩ := readReg_ok _ _ _ _ heq
        split at hx
        · cases hx
        · rename_i c5 v2 heq2
          obtain ⟨h5p, h5c, h5b⟩ := readReg_ok _ _ _ _ heq2
          split at hx
          · rw [Res.ok.injEq, Prod.mk.injEq] at hx
            obtain ⟨rfl, rfl⟩ := hx
            simp only [jump, hdrLen]
            rw [hU]
            omega
          · rw [Res.ok.injEq, Prod.mk.injEq] at hx
            obtain ⟨rfl, rfl⟩ := hx
            rw [hU] at hinv ⊢
            omega
    · simp only [hb] at hx
      rw [Res.ok.injEq, Prod.mk.injEq] at hx
      obtain ⟨rfl, rfl⟩ := hx
      rw [hb] at he
      cases he
  -- 10: bne
  · simp only [exec] at hx
    rcases hb : (readB c 6).1.err with _ | e
    · simp only [hb] at hx
      obtain ⟨hbe, hbp, hbc, hbb⟩ := readB_ok c 6 hb
      split at hx
      · cases hx
      · rename_i c4 v1 heq
        obtain ⟨h4p, h4c, h4b⟩ := readReg_ok _ _ _ _ heq
        split at hx
        · cases hx
        · rename_i c5 v2 heq2
          obtain ⟨h5p, h5c, h5b⟩ := readReg_ok _ _ _ _ heq2
          split at hx
          · rw [Res.ok.injEq, Prod.mk.injEq] at hx
            obtain ⟨rfl, rfl⟩ := hx
            simp only [jump, hdrLen]
            rw [hU]
            omega
          · rw [Res.ok.injEq, Prod.mk.injEq] at hx
            obtain ⟨rfl, rfl⟩ := hx
            rw [hU] at hinv ⊢
            omega
    · simp only [hb] at hx
      rw [Res.ok.injEq, Prod.mk.injEq] at hx
      obtain ⟨rfl, rfl⟩ := hx
      rw [hb] at he
      cases he
  -- 11: bgt
  · simp only [exec] at hx
    rcases hb : (readB c 6).1.err with _ | e
    · simp only [hb] at hx
      obtain ⟨hbe, hbp, hbc, hbb⟩ := readB_ok c 6 hb
      split at hx
      · cases hx
      · rename_i c4 v1 heq
        obtain ⟨h4p, h4c, h4b⟩ := readReg_ok _ _ _ _ heq
        split at hx
        · cases hx
        · rename_i c5 v2 heq2
          obtain ⟨h5p, h5c, h5b⟩ := readReg_ok _ _ _ _ heq2
          split at hx
          · rw [Res.ok.injEq, Prod.mk.injEq] at hx
            obtain ⟨rfl, rfl⟩ := hx
            simp only [jump, hdrLen]
            rw [hU]
            omega
          · rw [Res.ok.injEq, Prod.mk.injEq] at hx
            obtain ⟨rfl, rfl⟩ := hx
            rw [hU] at hinv ⊢
            omega
    · simp only [hb] at hx
      rw [Res.ok.injEq, Prod.mk.injEq] at hx
      obtain ⟨rfl, rfl⟩ := hx
      rw [hb] at he
      cases he
  -- 12: blt
  · simp only [exec] at hx
    rcases hb : (readB c 6).1.err with _ | e
    · simp only [hb] at hx
      obtain ⟨hbe, hbp, hbc, hbb⟩ := readB_ok c 6 hb
      split at hx
      · cases hx
      · rename_i c4 v1 heq
        obtain ⟨h4p, h4c, h4b⟩ := readReg_ok _ _ _ _ heq
        split at hx
        · cases hx
        · rename_i c5 v2 heq2
          obtain ⟨h5p, h5c, h5b⟩ := readReg_ok _ _ _ _ heq2
          split at hx
          · rw [Res.ok.injEq, Prod.mk.injEq] at hx
            obtain ⟨rfl, rfl⟩ := hx
            simp only [jump, hdrLen]
            rw [hU]
            omega
          · rw [Res.ok.injEq, Prod.mk.injEq] at hx
            obtain ⟨rfl, rfl⟩ := hx
            rw [hU] at hinv ⊢
            omega
    · simp only [hb] at hx
      rw [Res.ok.injEq, Prod.mk.injEq] at hx
      obtain ⟨rfl, rfl⟩ := hx
      rw [hb] at he
      cases he
  -- 13: j
  · simp only [exec] at hx
    rcases hb : (readB c 4).1.err with _ | e
    · simp only [hb] at hx
      rw [Res.ok.injEq, Prod.mk.injEq] at hx
      obtain ⟨rfl, rfl⟩ := hx
      simp only [jump, hdrLen]
      rw [hU]
      omega
    · simp only [hb] at hx
      rw [Res.ok.injEq, Prod.mk.injEq] at hx
      obtain ⟨rfl, rfl⟩ := hx
      rw [hb] at he
      cases he
  -- 14: jr
  · simp only [exec] at hx
    rcases hb : (readB c 1).1.err with _ | e
    · simp only [hb] at hx
      split at hx
      · cases hx
      · rename_i c4 v heq
        rw [Res.ok.injEq, Prod.mk.injEq] at hx
        obtain ⟨rfl, rfl⟩ := hx
        simp only [jump, hdrLen]
        rw [hU]
        omega
    · simp only [hb] at hx
      rw [Res.ok.injEq, Prod.mk.injEq] at hx
      obtain ⟨rfl, rfl⟩ := hx
      rw [hb] at he
      cases he
  -- 15: call
  · simp only [exec] at hx
    rcases hb : (readB c 4).1.err with _ | e
    · simp only [hb] at hx
      split at hx
      · cases hx
      · rename_i c6 heqw
        rw [Res.ok.injEq, Prod.mk.injEq] at hx
        obtain ⟨rfl, rfl⟩ := hx
        simp only [jump, hdrLen]
        rw [hU]
        omega
    · simp only [hb] at hx
      rw [Res.ok.injEq, Prod.mk.injEq] at hx
      obtain ⟨rfl, rfl⟩ := hx
      rw [hb] at he
      cases he
  -- 16: exit
  · simp only [exec] at hx
    rw [Res.ok.injEq, Prod.mk.injEq] at hx
    obtain ⟨rfl, rfl⟩ := hx
    dsimp only
    rw [hU] at hinv ⊢
    omega

end cpu

namespace cpu

/-- Claim C4: a `Step` that completes without error preserves the fetch
invariant `cursor = pc + header length`: whenever the machine starts a fetch
with `pos ≡ pc + 4 (mod 2^32)` (`pc` is a `uint32`; for objects smaller than
4 GiB this is plain equality) and the step returns no error, the next fetch
starts with the same synchronization — whether the instruction fell through
(`pc` advanced by 1 plus the handler's operand byte count) or transferred
control (handler returned 0 after the jump primitive resynchronized both).
The freshly loaded machine satisfies the invariant (`pos = 4`, `pc = 0`), so
it holds at the start of every fetch of an error-free run. -/
theorem step_preserves_pc_cursor_sync (c c1 : Cpu)
    (hs : step c = .ok (c1, none))
    (hinv : c.pos % U32 = (c.pc + 4) % U32) :
    c1.pos % U32 = (c1.pc + 4) % U32 := by
  have hU : U32 = 4294967296 := rfl
  unfold step at hs
  by_cases hr : c.pos + 1 ≤ c.buf.length
  case neg =>
    simp only [readB, if_neg hr] at hs
    simp at hs
  case pos =>
    simp only [readB, if_pos hr] at hs
    rcases hce : c.err with _ | e
    · simp only [hce] at hs
      by_cases h16 : ((c.buf.drop c.pos).take 1).getD 0 0 > 16
      · simp only [if_pos h16] at hs
        simp at hs
      · simp only [if_neg h16] at hs
        split at hs
        · cases hs
        · rename_i c3 n heq
          rw [Res.ok.injEq, Prod.mk.injEq] at hs
          obtain ⟨rfl, he⟩ := hs
          have hsync := exec_sync _ _ _ _ (by omega) heq he (by
            dsimp only
            rw [hU] at hinv ⊢
            omega)
          dsimp only
          rw [hU] at hsync ⊢
          omega
    · simp only [hce] at hs
      simp at hs

/-- Witness for C4: one error-free `exit` step from a freshly loaded
machine. -/
theorem step_preserves_pc_cursor_sync_witness :
    (stepCpu (load [72, 89, 80, 0, 16])).pos % U32 =
      ((stepCpu (load [72, 89, 80, 0, 16])).pc + 4) % U32 :=
  step_preserves_pc_cursor_sync (load [72, 89, 80, 0, 16]) (stepCpu (load [72, 89, 80, 0, 16]))
    (by rfl) (by rfl)

end cpu
